import Mathlib

/-!
Shallow embedding of the eduassist-api streaming pipeline
(`src/main.py` server websocket handler `stt_stream` and `src/client.py`
client gate `processor_task`), together with proofs of the behavioural
claims about it.

Conventions of the embedding:
* Python `Optional[str]` becomes `Option String`; Python truthiness of a
  string option (`not s`) is `pyFalsy`.
* JSON messages sent with `ws.send_json` become the inductive `OutMsg`,
  one constructor per distinct payload shape occurring in the source.
* numpy `int16` samples become `ℤ` together with explicit wrap-around
  where the source's dtype makes it observable (`absInt16`).
* The float arithmetic of the gain-normalisation branch is modelled in
  `ℚ`; on every input considered in the theorems below the source's
  float32/float64 computation is exact, so the rational model agrees
  with it bit-for-bit there.
-/

namespace EduAssist

/-- The outbound server→client messages of `stt_stream` (src/main.py),
one constructor per `ws.send_json` payload shape. -/
inductive OutMsg : Type
  | ready
  | interim (text : String)
  | finalRes (text : String) (reason : String) (raw : Option String)
  | errorRecognized (text : String) (reason : String) (raw : Option String)
  | errorCanceled (reason : String) (error : String)
  | errorSimple (error : String)
  | session (event : String)
  | info (event : String)
  deriving DecidableEq, Repr

/-- The `"type"` field of the JSON object each `OutMsg` stands for. -/
def OutMsg.msgType : OutMsg → String
  | .ready => "ready"
  | .interim _ => "partial"
  | .finalRes _ _ _ => "final"
  | .errorRecognized _ _ _ => "error"
  | .errorCanceled _ _ => "error"
  | .errorSimple _ => "error"
  | .session _ => "session"
  | .info _ => "info"

/-- Cancellation reasons of the speech SDK that `handle_canceled`
distinguishes (`speechsdk.CancellationReason`). -/
inductive CancellationReason : Type
  | error
  | endOfStream
  | cancelledByUser
  deriving DecidableEq, Repr

/-- Python `str(det.reason)` on a `CancellationReason`. -/
def reasonStr : CancellationReason → String
  | .error => "CancellationReason.Error"
  | .endOfStream => "CancellationReason.EndOfStream"
  | .cancelledByUser => "CancellationReason.CancelledByUser"

/-- Embedding of `evt.result.cancellation_details` as consumed by `handle_canceled`. -/
structure CancellationDetails : Type where
  reason : CancellationReason
  errorDetails : Option String
  deriving DecidableEq, Repr

/-- Python `det.error_details or "unknown"` (src/main.py line 142):
`None` and the empty string are falsy. -/
def orUnknown : Option String → String
  | none => "unknown"
  | some s => if s = "" then "unknown" else s

/-- The two queue destinations `handle_canceled` can route an event to:
an item for `canceled_q` or the sentinel put on `session_stopped_q`. -/
inductive CanceledRoute : Type
  | canceledItem (reason : String) (error : String)
  | sessionStoppedItem
  deriving DecidableEq, Repr

/-- Embedding of `handle_canceled` (src/main.py lines 137-146): an error-reason event
is put on `canceled_q` carrying `str(det.reason)` and the error detail;
any other reason puts `True` on `session_stopped_q`. -/
def handle_canceled (det : CancellationDetails) : CanceledRoute :=
  if det.reason = CancellationReason.error then
    CanceledRoute.canceledItem (reasonStr det.reason) (orUnknown det.errorDetails)
  else
    CanceledRoute.sessionStoppedItem

/-- Embedding of the `process_canceled` body (src/main.py lines 178-181): each item of
`canceled_q` is sent as `{"type":"error", **item}`. -/
def process_canceled (item : String × String) : OutMsg :=
  OutMsg.errorCanceled item.1 item.2

/-- Embedding of the `process_session_stop` body (src/main.py lines 188-191): each item of
`session_stopped_q` is sent as `{"type":"session","event":"stopped"}`. -/
def process_session_stop : OutMsg :=
  OutMsg.session "stopped"

/-- Embedding of the `process_session` body (src/main.py lines 183-186). -/
def process_session_started : OutMsg :=
  OutMsg.session "started"

/-- Embedding of the `process_recognizing` body (src/main.py lines 165-168). -/
def process_recognizing (text : String) : OutMsg :=
  OutMsg.interim text

/-- The payload built by `handle_recognized` (src/main.py lines 123-135):
keys `text`, `reason`, and optionally `raw`.  It never contains an
`"error"` key, so of the condition on line 173 only the `reason` test
can fire. -/
structure RecognizedPayload : Type where
  text : String
  reason : String
  raw : Option String
  deriving DecidableEq, Repr

/-- Embedding of the `process_recognized` body (src/main.py lines 170-176). -/
def process_recognized (p : RecognizedPayload) : OutMsg :=
  if p.reason = "CancellationReason.Error" then
    OutMsg.errorRecognized p.text p.reason p.raw
  else
    OutMsg.finalRes p.text p.reason p.raw

/-! ### Binary audio payloads and gain normalisation (src/main.py lines 223-239)

Payloads are byte strings; `np.frombuffer(data, dtype=np.int16)` views
consecutive little-endian byte pairs as signed 16-bit samples and raises
on odd length (the `except` clause then falls back to the raw bytes).
The float computation `min(3.0, 30000.0/maxv)` and
`np.clip(arr.astype(np.float32)*gain, -32768.0, 32767.0).astype(np.int16)`
is modelled exactly: the gain is kept as the fraction `gnum/gden`, the
product is exact, `astype(np.int16)` truncates toward zero
(`Int.tdiv`), and the clip bounds are integers so clipping commutes with
the truncation. -/

/-- The signed 16-bit sample denoted by the little-endian byte pair
`(lo, hi)`, as `np.frombuffer(·, dtype=np.int16)` reads it. -/
def decodeSample (lo hi : Nat) : ℤ :=
  if lo + 256 * hi < 32768 then ((lo + 256 * hi : Nat) : ℤ)
  else ((lo + 256 * hi : Nat) : ℤ) - 65536

/-- Embedding of `np.frombuffer(data_bytes, dtype=np.int16)`: `none` when the byte
string has odd length (numpy raises `ValueError`). -/
def bytesToSamples : List Nat → Option (List ℤ)
  | [] => some []
  | [_] => none
  | lo :: hi :: rest => (bytesToSamples rest).map (fun l => decodeSample lo hi :: l)

/-- The two little-endian bytes of one int16 sample, as `arr.tobytes()`
writes them (two's complement). -/
def sampleBytes (s : ℤ) : List Nat :=
  [(s % 65536).toNat % 256, (s % 65536).toNat / 256]

/-- Embedding of `arr.tobytes()` for a whole int16 array. -/
def samplesToBytes (l : List ℤ) : List Nat := (l.map sampleBytes).flatten

/-- Embedding of `np.abs` on dtype int16: two's-complement negation overflows on the
most negative value, so `abs(-32768)` wraps to `-32768`. -/
def absInt16 (s : ℤ) : ℤ := if s = -32768 then -32768 else |s|

/-- Embedding of `np.clip(x, -32768.0, 32767.0)` restricted to the (integral) values
that arise after truncation. -/
def clip16 (x : ℤ) : ℤ := max (-32768) (min 32767 x)

/-- One sample of `np.clip(arr.astype(np.float32) * gain, -32768.0,
32767.0).astype(np.int16)` with `gain = gnum/gden`: exact product,
truncation toward zero, clip to the int16 range. -/
def applyGain (gnum gden s : ℤ) : ℤ := clip16 (Int.tdiv (s * gnum) gden)

/-- Embedding of `int(np.max(np.abs(arr)))` for the nonempty sample array
`s0 :: rest` (the code guards `arr.size > 0`). -/
def npMaxAbs (s0 : ℤ) (rest : List ℤ) : ℤ :=
  (rest.map absInt16).foldl max (absInt16 s0)

/-- The whole normalisation branch of the receive loop (src/main.py
lines 225-238), from raw bytes to the bytes written to `push_stream`:
decode as int16 (raw fallback on failure), skip empty arrays and
all-zero peaks, compute `gain = min(3.0, 30000.0/maxv)` as the exact
fraction `g.1/g.2`, and only when `gain > 1` (equivalently
`g.2 < g.1`) re-encode the scaled, clipped samples. -/
def normalizeBytes (b : List Nat) : List Nat :=
  match bytesToSamples b with
  | none => b
  | some [] => b
  | some (s0 :: rest) =>
    if 0 < npMaxAbs s0 rest then
      let g := if 10000 < npMaxAbs s0 rest
        then ((30000 : ℤ), npMaxAbs s0 rest) else ((3 : ℤ), (1 : ℤ))
      if g.2 < g.1 then samplesToBytes ((s0 :: rest).map (applyGain g.1 g.2))
      else b
    else b

/-- The mathematical peak magnitude of a sample list (the quantity the
spec's "peak absolute sample value" denotes). -/
def peakAbs (l : List ℤ) : ℤ := (l.map (fun s => |s|)).foldl max 0

/-! ### Connection authentication (src/main.py lines 46-48 and 69-82) -/

/-- Python truthiness test `not s` for an `Optional[str]`: true on
`None` and on the empty string. -/
def pyFalsy : Option String → Bool
  | none => true
  | some s => s = ""

/-- Python `a or b` on `Optional[str]` values. -/
def pyOrStr (a b : Option String) : Option String :=
  match a with
  | none => b
  | some s => if s = "" then b else some s

/-- Embedding of `headers.get("x-api-key") or ws.query_params.get("api_key")`
(src/main.py line 74). -/
def credential (headerKey queryKey : Option String) : Option String :=
  pyOrStr headerKey queryKey

/-- The websocket authorisation test (src/main.py line 75): the
connection is accepted iff `API_KEY` is truthy and the extracted
credential equals it. -/
def wsAuthorized (apiKey cred : Option String) : Bool :=
  !(pyFalsy apiKey) && (cred == apiKey)

/-- Embedding of `require_api_key` (src/main.py lines 46-48): raises HTTP 401 unless
the key is configured (truthy) and matches the `X-API-Key` header. -/
def require_api_key (apiKey xApiKey : Option String) : Except Nat Unit :=
  if pyFalsy apiKey || !(xApiKey == apiKey) then Except.error 401 else Except.ok ()

/-- Embedding of `str(ws.query_params.get("normalize", "false")).lower() in
("1", "true", "yes")` (src/main.py line 82). -/
def parseNormalizeFlag (q : Option String) : Bool :=
  (q.getD "false").toLower = "1" || (q.getD "false").toLower = "true" ||
    (q.getD "false").toLower = "yes"

/-! ### The event multiplexer (src/main.py lines 110-206)

Five per-class `asyncio.Queue`s are drained by five fan-in tasks
(`process_recognizing` … `process_session_stop`), each popping its own
queue in FIFO order and performing one complete `ws.send_json` per item.
An execution is modelled by a schedule: at each step one class's task
runs; if its queue is empty the task stays blocked (no output),
otherwise it pops the head and writes the translated message. -/

/-- The five engine event classes (src/main.py lines 110-114). -/
inductive EvClass : Type
  | recognizing
  | recognized
  | canceled
  | sessStart
  | sessStop
  deriving DecidableEq, Repr

/-- The contents of the five per-class queues, in engine emission order.
The two session queues only ever hold the sentinel `True`, so a count
suffices. -/
structure EngineQueues : Type where
  recognizingQ : List String
  recognizedQ : List RecognizedPayload
  canceledQ : List (String × String)
  sessionStartedQ : Nat
  sessionStoppedQ : Nat
  deriving DecidableEq, Repr

/-- One step of the fan-in task of class `c`: pop the head of its queue
(if any) and produce the correspondingly tagged outbound message. -/
def popClass (c : EvClass) (qs : EngineQueues) : Option (OutMsg × EngineQueues) :=
  match c with
  | .recognizing =>
    match qs.recognizingQ with
    | [] => none
    | t :: rest => some (process_recognizing t, { qs with recognizingQ := rest })
  | .recognized =>
    match qs.recognizedQ with
    | [] => none
    | p :: rest => some (process_recognized p, { qs with recognizedQ := rest })
  | .canceled =>
    match qs.canceledQ with
    | [] => none
    | i :: rest => some (process_canceled i, { qs with canceledQ := rest })
  | .sessStart =>
    match qs.sessionStartedQ with
    | 0 => none
    | n + 1 => some (process_session_started, { qs with sessionStartedQ := n })
  | .sessStop =>
    match qs.sessionStoppedQ with
    | 0 => none
    | n + 1 => some (process_session_stop, { qs with sessionStoppedQ := n })

/-- The outbound messages written by the five fan-in tasks under a given
interleaving `sched` of task activations. -/
def pumpTrace : List EvClass → EngineQueues → List OutMsg
  | [], _ => []
  | c :: sched, qs =>
    match popClass c qs with
    | none => pumpTrace sched qs
    | some (m, qs2) => m :: pumpTrace sched qs2

/-- Which event class an outbound message originates from (`none` for
messages not produced by the fan-in tasks). -/
def classOf : OutMsg → Option EvClass
  | .ready => none
  | .interim _ => some .recognizing
  | .finalRes _ _ _ => some .recognized
  | .errorRecognized _ _ _ => some .recognized
  | .errorCanceled _ _ => some .canceled
  | .errorSimple _ => none
  | .session e => if e = "started" then some .sessStart else some .sessStop
  | .info _ => none

/-- The messages class `c` would emit for its whole queue, in engine
emission order. -/
def classMsgs (c : EvClass) (qs : EngineQueues) : List OutMsg :=
  match c with
  | .recognizing => qs.recognizingQ.map process_recognizing
  | .recognized => qs.recognizedQ.map process_recognized
  | .canceled => qs.canceledQ.map process_canceled
  | .sessStart => List.replicate qs.sessionStartedQ process_session_started
  | .sessStop => List.replicate qs.sessionStoppedQ process_session_stop

/-- The subsequence of a message trace belonging to class `c`. -/
def classProj (c : EvClass) (tr : List OutMsg) : List OutMsg :=
  tr.filter (fun m => classOf m == some c)

/-! ### The receive loop (src/main.py lines 208-239) -/

/-- Observable effects of the connection handler. -/
inductive WireEvent : Type
  | sent (m : OutMsg)
  | sinkWrite (payload : List Nat)
  | sinkClose
  | engineStart
  | engineStop
  | closedWith (code : Nat)
  deriving DecidableEq, Repr

/-- The outcome of `json.loads` on a textual payload: failure, or a JSON
object with (string-valued) fields.  Parsing itself is Python's stdlib,
an external collaborator; the loop only inspects the outcome. -/
inductive TextParse : Type
  | failed
  | obj (fields : List (String × String))
  deriving DecidableEq, Repr

/-- One ASGI message as received by `await ws.receive()`. -/
inductive InFrame : Type
  | disconnect
  | textFrame (text : String) (parse : TextParse)
  | binFrame (payload : List Nat)
  deriving DecidableEq, Repr

/-- Embedding of `dict.get` on the parsed JSON object's fields. -/
def lookupField : List (String × String) → String → Option String
  | [], _ => none
  | (k, v) :: rest, key => if k = key then some v else lookupField rest key

/-- Whether a textual payload takes the `stop` branch (src/main.py lines
213-219): nonempty text, successful parse, and field `event = "stop"`.
An empty text gives `data = {}`, and a parse failure is swallowed by the
`except`; both fall through with no effect. -/
def isStopText (text : String) (parse : TextParse) : Bool :=
  if text = "" then false
  else
    match parse with
    | .failed => false
    | .obj fields => lookupField fields "event" == some "stop"

/-- The normalisation switch applied to one binary payload
(src/main.py lines 225-238). -/
def normBytes (normalizeFlag : Bool) (b : List Nat) : List Nat :=
  if normalizeFlag then normalizeBytes b else b

/-- The receive loop (src/main.py lines 208-239): disconnect breaks the
loop; a textual `stop` payload is acknowledged with `info{stop_ack}` and
the loop continues; any other textual payload is ignored; a nonempty
binary payload (`msg.get("bytes")` is falsy on `b""`) is normalised and
written to the engine sink. -/
def recvLoop (normalizeFlag : Bool) : List InFrame → List WireEvent
  | [] => []
  | InFrame.disconnect :: _ => []
  | InFrame.textFrame t p :: rest =>
    if isStopText t p then
      WireEvent.sent (OutMsg.info "stop_ack") :: recvLoop normalizeFlag rest
    else recvLoop normalizeFlag rest
  | InFrame.binFrame b :: rest =>
    if b = [] then recvLoop normalizeFlag rest
    else WireEvent.sinkWrite (normBytes normalizeFlag b) :: recvLoop normalizeFlag rest

/-! ### The whole connection handler `stt_stream` (src/main.py 69-257) -/

/-- The connection-dependent inputs of `stt_stream`. -/
structure ConnParams : Type where
  headerKey : Option String
  queryKey : Option String
  normalizeParam : Option String
  deriving DecidableEq, Repr

/-- Interleaving of two event streams under a boolean schedule (the
cooperative scheduler's choice at each step); when one side is
exhausted the other runs alone. -/
def interleave {α : Type} : List Bool → List α → List α → List α
  | [], xs, ys => xs ++ ys
  | true :: s, xs, ys =>
    match xs with
    | [] => ys
    | x :: xs => x :: interleave s xs ys
  | false :: s, xs, ys =>
    match ys with
    | [] => xs
    | y :: ys => y :: interleave s xs ys

/-- The observable trace of one `stt_stream` connection.
`startupOk` is whether `make_speech_config` and recognizer startup
succeed (their failure raises into the outer `except`, which sends one
error message and closes); `psched`/`qs` drive the multiplexer,
`sched` interleaves multiplexer output with the receive loop, and
`frames` is the inbound message stream.  Source order: the auth check
(lines 73-78) precedes session setup; `ready` (line 162) precedes the
creation of `pump_task` (line 206) and the receive loop; teardown
(lines 241-248) closes the sink, stops recognition and closes the
socket. -/
def stt_stream_trace (apiKey : Option String) (p : ConnParams) (startupOk : Bool)
    (startupErr : String) (sched : List Bool) (psched : List EvClass)
    (qs : EngineQueues) (frames : List InFrame) : List WireEvent :=
  if !(wsAuthorized apiKey (credential p.headerKey p.queryKey)) then
    [WireEvent.sent (OutMsg.errorSimple "unauthorized"), WireEvent.closedWith 4401]
  else if !startupOk then
    [WireEvent.sent (OutMsg.errorSimple startupErr), WireEvent.closedWith 1000]
  else
    WireEvent.engineStart ::
    WireEvent.sent OutMsg.ready ::
    (interleave sched ((pumpTrace psched qs).map WireEvent.sent)
      (recvLoop (parseNormalizeFlag p.normalizeParam) frames) ++
      [WireEvent.sinkClose, WireEvent.engineStop, WireEvent.closedWith 1000])

/-- The outbound messages of a trace, in send order. -/
def sentMsgs (tr : List WireEvent) : List OutMsg :=
  tr.filterMap (fun e => match e with | WireEvent.sent m => some m | _ => none)

/-! ### The client gate (src/client.py lines 146-188) -/

/-- The outcome of `porcupine.process(frame)`: a keyword index, or an
exception (the `except` sets `keyword_index = -1`). -/
inductive DetOut : Type
  | ok (idx : Int)
  | exn
  deriving DecidableEq, Repr

/-- The per-frame external inputs of the gate: the detector outcome (if
consulted) and the value `stop_recording_evt.is_set()` would return at
the end-of-frame check (the event is set asynchronously by the
receiver's `final` handler). -/
structure FrameInput : Type where
  det : DetOut
  stopSet : Bool
  deriving DecidableEq, Repr

/-- The client session state (src/client.py line 86). -/
inductive GateState : Type
  | idle
  | recording
  deriving DecidableEq, Repr

/-- Processing of one whole frame by `processor_task` (src/client.py
lines 160-187): while idle, run the detector (exception ↦ -1); on a
non-negative keyword index switch to recording and `continue` (the
wake-word frame itself is not forwarded); while recording, forward the
frame and return to idle if the end-of-utterance event is set.  The
returned boolean is whether the frame was pushed onto `send_q`. -/
def gateStep (st : GateState) (inp : FrameInput) : GateState × Bool :=
  match st with
  | .idle =>
    match inp.det with
    | .ok i => if 0 ≤ i then (GateState.recording, false) else (GateState.idle, false)
    | .exn => if 0 ≤ (-1 : Int) then (GateState.recording, false) else (GateState.idle, false)
  | .recording =>
    (if inp.stopSet then GateState.idle else GateState.recording, true)

/-- The run of the gate over a frame sequence; each entry records the
state on frame entry and whether that frame was forwarded. -/
def gateRun (st : GateState) : List FrameInput → List (GateState × Bool)
  | [] => []
  | f :: fs => (st, (gateStep st f).2) :: gateRun (gateStep st f).1 fs

/-! ### Chunk reassembly (src/client.py lines 148-188) -/

/-- The inner `while offset + bytes_per_frame <= len(buf)` loop: cut as
many whole `bpf`-byte frames off the front of `buf` as fit; the tail
shorter than one frame is the leftover (`buf[offset:]`). -/
def splitFrames (bpf : Nat) (buf : List Nat) : List (List Nat) × List Nat :=
  if h : 0 < bpf ∧ bpf ≤ buf.length then
    (buf.take bpf :: (splitFrames bpf (buf.drop bpf)).1,
      (splitFrames bpf (buf.drop bpf)).2)
  else ([], buf)
termination_by buf.length
decreasing_by
  all_goals simp only [List.length_drop]; omega

/-- The outer loop of `processor_task` over arriving chunks: prepend the
carried leftover to each chunk, process whole frames, carry the new
leftover.  Returns all processed frames and the final leftover. -/
def processChunks (bpf : Nat) (leftover : List Nat) :
    List (List Nat) → List (List Nat) × List Nat
  | [] => ([], leftover)
  | c :: cs =>
    ((splitFrames bpf (leftover ++ c)).1 ++
       (processChunks bpf (splitFrames bpf (leftover ++ c)).2 cs).1,
     (processChunks bpf (splitFrames bpf (leftover ++ c)).2 cs).2)

theorem self_le_foldl_max (l : List ℤ) (b : ℤ) : b ≤ l.foldl max b := by
  induction l generalizing b with
  | nil => exact le_refl b
  | cons a l ih => exact le_trans (le_max_left b a) (ih (max b a))

theorem le_foldl_max (l : List ℤ) (b x : ℤ) (hx : x ∈ l) : x ≤ l.foldl max b := by
  induction l generalizing b with
  | nil => cases hx
  | cons a l ih =>
    rcases List.mem_cons.1 hx with h | h
    · subst h
      exact le_trans (le_max_right b x) (self_le_foldl_max l (max b x))
    · exact ih (max b a) h

theorem foldl_max_le (l : List ℤ) (b c : ℤ) (hb : b ≤ c) (hl : ∀ x ∈ l, x ≤ c) :
    l.foldl max b ≤ c := by
  induction l generalizing b with
  | nil => exact hb
  | cons a l ih =>
    exact ih (max b a) (max_le hb (hl a (List.mem_cons_self a l)))
      (fun x hx => hl x (List.mem_cons_of_mem a hx))

theorem foldl_max_cases (l : List ℤ) (b : ℤ) : l.foldl max b = b ∨ l.foldl max b ∈ l := by
  induction l generalizing b with
  | nil => exact Or.inl rfl
  | cons a l ih =>
    rcases ih (max b a) with h | h
    · rcases max_choice b a with hba | hba
      · exact Or.inl (by rw [List.foldl_cons, h, hba])
      · exact Or.inr (by rw [List.foldl_cons, h, hba]; exact List.mem_cons_self a l)
    · exact Or.inr (List.mem_cons_of_mem a h)

theorem decodeSample_roundtrip (s : ℤ) (h1 : -32768 ≤ s) (h2 : s ≤ 32767) :
    decodeSample ((s % 65536).toNat % 256) ((s % 65536).toNat / 256) = s := by
  unfold decodeSample
  split <;> omega

theorem decode_encode (l : List ℤ) (h : ∀ x ∈ l, -32768 ≤ x ∧ x ≤ 32767) :
    bytesToSamples (samplesToBytes l) = some l := by
  induction l with
  | nil => rfl
  | cons s rest ih =>
    have hs := h s (List.mem_cons_self s rest)
    have hrest : ∀ x ∈ rest, -32768 ≤ x ∧ x ≤ 32767 :=
      fun x hx => h x (List.mem_cons_of_mem s hx)
    show bytesToSamples (((s :: rest).map sampleBytes).flatten) = some (s :: rest)
    simp only [List.map_cons, List.flatten_cons, sampleBytes, List.cons_append,
      List.nil_append]
    show (bytesToSamples ((rest.map sampleBytes).flatten)).map _ = _
    rw [show (rest.map sampleBytes).flatten = samplesToBytes rest from rfl, ih hrest]
    simp [decodeSample_roundtrip s hs.1 hs.2]

/-- C6 counterexample: the payload `[0,128,232,3]` decodes to the int16
samples `[-32768, 1000]`, whose peak absolute sample value is
`32768 ≥ 30000`; yet because `np.abs` wraps `-32768` to `-32768`, the
code computes `maxv = 1000`, applies gain 3, and the output bytes differ
from the input bytes — refuting the claim as stated. -/
theorem normalize_attenuation_cex :
    bytesToSamples [0, 128, 232, 3] = some [-32768, 1000] ∧
    (30000 : ℤ) ≤ peakAbs [-32768, 1000] ∧
    normalizeBytes [0, 128, 232, 3] ≠ [0, 128, 232, 3] :=
  ⟨by decide, by decide, by decide⟩

/-- C6 (amended): if the peak magnitude of a decoded payload is at least
30000 and is attained at a sample other than `-32768` (so that the int16
`np.abs` does not wrap it away), the gain is at most 1 and is never
applied: the bytes written to the engine sink equal the input bytes. -/
theorem normalize_no_attenuate (b : List Nat) (s0 : ℤ) (rest : List ℤ)
    (hdec : bytesToSamples b = some (s0 :: rest))
    (hpk : ∃ s ∈ s0 :: rest, s ≠ -32768 ∧ (30000 : ℤ) ≤ |s|) :
    normalizeBytes b = b := by
  obtain ⟨s, hmem, hne, habs⟩ := hpk
  have habs16 : (30000 : ℤ) ≤ absInt16 s := by
    unfold absInt16
    rw [if_neg hne]
    exact habs
  have hmax : (30000 : ℤ) ≤ npMaxAbs s0 rest := by
    unfold npMaxAbs
    rcases List.mem_cons.1 hmem with h | h
    · subst h
      exact le_trans habs16 (self_le_foldl_max _ _)
    · exact le_trans habs16 (le_foldl_max _ _ _ (List.mem_map_of_mem _ h))
  unfold normalizeBytes
  rw [hdec]
  show (if 0 < npMaxAbs s0 rest then
      let g := if 10000 < npMaxAbs s0 rest
        then ((30000 : ℤ), npMaxAbs s0 rest) else ((3 : ℤ), (1 : ℤ))
      if g.2 < g.1 then samplesToBytes ((s0 :: rest).map (applyGain g.1 g.2))
      else b
    else b) = b
  rw [if_pos (by omega : (0 : ℤ) < npMaxAbs s0 rest),
    if_pos (by omega : (10000 : ℤ) < npMaxAbs s0 rest)]
  show (if npMaxAbs s0 rest < 30000 then _ else b) = b
  rw [if_neg (by omega : ¬ npMaxAbs s0 rest < 30000)]

/-- Concrete instantiation of `normalize_no_attenuate`: a one-sample
payload at exactly the target peak 30000 passes through unchanged. -/
theorem normalize_no_attenuate_witness :
    normalizeBytes [48, 117] = [48, 117] :=
  normalize_no_attenuate [48, 117] 30000 [] (by decide)
    ⟨30000, by decide, by decide, by decide⟩

/-- C7: a payload whose peak sample magnitude is exactly 10000 is scaled
by the capped gain `min(3, 30000/10000) = 3`; the output decodes to
samples with peak magnitude `min(30000, 10000*3) = 30000`, all within
the signed 16-bit range. -/
theorem normalize_gain_capped (b : List Nat) (s0 : ℤ) (rest : List ℤ)
    (hdec : bytesToSamples b = some (s0 :: rest))
    (hpk : peakAbs (s0 :: rest) = 10000) :
    ∃ out, bytesToSamples (normalizeBytes b) = some out ∧
      peakAbs out = 30000 ∧ ∀ x ∈ out, -32768 ≤ x ∧ x ≤ 32767 := by
  have hall : ∀ x ∈ s0 :: rest, |x| ≤ 10000 := by
    intro x hx
    have hle : |x| ≤ peakAbs (s0 :: rest) :=
      le_foldl_max _ _ _ (List.mem_map_of_mem _ hx)
    omega
  have hbound : ∀ x ∈ s0 :: rest, -10000 ≤ x ∧ x ≤ 10000 :=
    fun x hx => abs_le.1 (hall x hx)
  have hex : ∃ x ∈ s0 :: rest, |x| = 10000 := by
    rcases foldl_max_cases ((s0 :: rest).map (fun s => |s|)) 0 with h | h
    · rw [peakAbs] at hpk
      omega
    · have h10 : (10000 : ℤ) ∈ (s0 :: rest).map (fun s => |s|) := by
        rw [peakAbs] at hpk
        rwa [hpk] at h
      rcases List.mem_map.1 h10 with ⟨x, hx, hx2⟩
      exact ⟨x, hx, hx2⟩
  have habs16 : ∀ x ∈ s0 :: rest, absInt16 x = |x| := by
    intro x hx
    have hb := hbound x hx
    unfold absInt16
    rw [if_neg (by omega : x ≠ -32768)]
  have hmax : npMaxAbs s0 rest = 10000 := by
    unfold npMaxAbs
    rw [List.map_congr_left (fun x hx => habs16 x (List.mem_cons_of_mem s0 hx)),
      habs16 s0 (List.mem_cons_self s0 rest)]
    have hsplit : peakAbs (s0 :: rest) = (rest.map (fun s => |s|)).foldl max |s0| := by
      unfold peakAbs
      rw [List.map_cons, List.foldl_cons, max_eq_right (abs_nonneg s0)]
    rw [← hsplit, hpk]
  have hnb : normalizeBytes b = samplesToBytes ((s0 :: rest).map (applyGain 3 1)) := by
    unfold normalizeBytes
    rw [hdec]
    show (if 0 < npMaxAbs s0 rest then
        let g := if 10000 < npMaxAbs s0 rest
          then ((30000 : ℤ), npMaxAbs s0 rest) else ((3 : ℤ), (1 : ℤ))
        if g.2 < g.1 then samplesToBytes ((s0 :: rest).map (applyGain g.1 g.2))
        else b
      else b) = samplesToBytes ((s0 :: rest).map (applyGain 3 1))
    rw [if_pos (by omega : (0 : ℤ) < npMaxAbs s0 rest),
      if_neg (by omega : ¬ (10000 : ℤ) < npMaxAbs s0 rest)]
    show (if (1 : ℤ) < 3 then _ else b) = _
    rw [if_pos (by omega : (1 : ℤ) < (3 : ℤ))]
  have hApply : ∀ x ∈ s0 :: rest, applyGain 3 1 x = 3 * x := by
    intro x hx
    have hb := hbound x hx
    unfold applyGain clip16
    rw [Int.tdiv_one]
    rw [max_def, min_def]
    split_ifs <;> omega
  have hmapeq : (s0 :: rest).map (applyGain 3 1) = (s0 :: rest).map (fun x => 3 * x) :=
    List.map_congr_left hApply
  refine ⟨(s0 :: rest).map (fun x => 3 * x), ?_, ?_, ?_⟩
  · rw [hnb, hmapeq]
    apply decode_encode
    intro y hy
    rcases List.mem_map.1 hy with ⟨x, hx, rfl⟩
    have hb := hbound x hx
    omega
  · unfold peakAbs
    apply le_antisymm
    · apply foldl_max_le
      · norm_num
      · intro y hy
        rcases List.mem_map.1 hy with ⟨z, hz, rfl⟩
        rcases List.mem_map.1 hz with ⟨x, hx, rfl⟩
        have hb := hbound x hx
        rw [abs_le]
        omega
    · obtain ⟨x, hx, hxabs⟩ := hex
      have h3 : |3 * x| = 30000 := by
        rw [abs_mul, hxabs]
        norm_num
      have hmem3 : |3 * x| ∈ (((s0 :: rest).map (fun x => 3 * x)).map (fun s => |s|)) :=
        List.mem_map_of_mem _ (List.mem_map_of_mem _ hx)
      rw [← h3]
      exact le_foldl_max _ _ _ hmem3
  · intro y hy
    rcases List.mem_map.1 hy with ⟨x, hx, rfl⟩
    have hb := hbound x hx
    omega

/-- Concrete instantiation of `normalize_gain_capped`: the single sample
10000 is scaled to 30000. -/
theorem normalize_gain_capped_witness :
    ∃ out, bytesToSamples (normalizeBytes [16, 39]) = some out ∧
      peakAbs out = 30000 ∧ ∀ x ∈ out, -32768 ≤ x ∧ x ≤ 32767 :=
  normalize_gain_capped [16, 39] 10000 [] (by decide) (by decide)

/-- C1: a canceled engine event with reason `Error` is routed to
`canceled_q` and emitted as a message of type `"error"` carrying the
reason string and the error detail; a canceled event with any other
reason is routed to `session_stopped_q` and emitted as
`{"type":"session","event":"stopped"}`, never as an error. -/
theorem canceled_event_routing (det : CancellationDetails) :
    (det.reason = CancellationReason.error →
      handle_canceled det =
        CanceledRoute.canceledItem (reasonStr det.reason) (orUnknown det.errorDetails) ∧
      (process_canceled (reasonStr det.reason, orUnknown det.errorDetails)).msgType = "error")
    ∧
    (det.reason ≠ CancellationReason.error →
      handle_canceled det = CanceledRoute.sessionStoppedItem ∧
      process_session_stop = OutMsg.session "stopped" ∧
      process_session_stop.msgType ≠ "error") := by
  constructor
  · intro h
    refine ⟨?_, rfl⟩
    simp [handle_canceled, h]
  · intro h
    refine ⟨?_, rfl, by decide⟩
    simp [handle_canceled, h]

/-- Concrete instantiation of `canceled_event_routing`: an end-of-stream
cancellation is routed to the session-stopped queue. -/
theorem canceled_event_routing_witness :
    handle_canceled ⟨CancellationReason.endOfStream, none⟩ =
      CanceledRoute.sessionStoppedItem ∧
    process_session_stop = OutMsg.session "stopped" ∧
    process_session_stop.msgType ≠ "error" :=
  (canceled_event_routing ⟨CancellationReason.endOfStream, none⟩).2 (by decide)

theorem gateStep_idle_no_forward (f : FrameInput) : (gateStep GateState.idle f).2 = false := by
  obtain ⟨d, b⟩ := f
  cases d <;> simp only [gateStep] <;> split <;> rfl

/-- C3: a connection whose extracted credential is absent or differs
from the configured key is answered with exactly one
`error{unauthorized}` message and a close with code 4401; no `ready` is
sent, no engine session is opened, and no frame is written to the sink. -/
theorem unauthorized_rejected (apiKey : Option String) (p : ConnParams)
    (startupOk : Bool) (startupErr : String) (sched : List Bool) (psched : List EvClass)
    (qs : EngineQueues) (frames : List InFrame)
    (h : credential p.headerKey p.queryKey = none ∨
      credential p.headerKey p.queryKey ≠ apiKey) :
    stt_stream_trace apiKey p startupOk startupErr sched psched qs frames =
      [WireEvent.sent (OutMsg.errorSimple "unauthorized"), WireEvent.closedWith 4401] ∧
    sentMsgs (stt_stream_trace apiKey p startupOk startupErr sched psched qs frames) =
      [OutMsg.errorSimple "unauthorized"] ∧
    OutMsg.ready ∉
      sentMsgs (stt_stream_trace apiKey p startupOk startupErr sched psched qs frames) ∧
    WireEvent.engineStart ∉ stt_stream_trace apiKey p startupOk startupErr sched psched qs frames ∧
    ∀ b, WireEvent.sinkWrite b ∉
      stt_stream_trace apiKey p startupOk startupErr sched psched qs frames := by
  have hw : wsAuthorized apiKey (credential p.headerKey p.queryKey) = false := by
    unfold wsAuthorized
    rcases h with h | h
    · rw [h]
      cases apiKey with
      | none => simp [pyFalsy]
      | some k => simp
    · have hb : (credential p.headerKey p.queryKey == apiKey) = false :=
        beq_eq_false_iff_ne.mpr h
      simp [hb]
  have htr : stt_stream_trace apiKey p startupOk startupErr sched psched qs frames =
      [WireEvent.sent (OutMsg.errorSimple "unauthorized"), WireEvent.closedWith 4401] := by
    unfold stt_stream_trace
    rw [hw]
    simp
  refine ⟨htr, ?_, ?_, ?_, ?_⟩ <;> rw [htr] <;> simp [sentMsgs]

/-- Concrete instantiation of `unauthorized_rejected`: a client using a
wrong query-parameter key is rejected. -/
theorem unauthorized_rejected_witness :
    stt_stream_trace (some "k") ⟨none, some "wrong", none⟩ true "" [] []
        ⟨[], [], [], 0, 0⟩ [] =
      [WireEvent.sent (OutMsg.errorSimple "unauthorized"), WireEvent.closedWith 4401] :=
  (unauthorized_rejected (some "k") ⟨none, some "wrong", none⟩ true "" [] []
    ⟨[], [], [], 0, 0⟩ [] (Or.inr (by decide))).1

/-- C10: with no API key configured (`API_KEY` unset or empty), every
credential is rejected: `require_api_key` raises 401 for every header
value, and the websocket endpoint answers every connection with
`error{unauthorized}` and close code 4401. -/
theorem no_key_locks_out (apiKey : Option String)
    (h : apiKey = none ∨ apiKey = some "") :
    ∀ xApiKey p startupOk startupErr sched psched qs frames,
      require_api_key apiKey xApiKey = Except.error 401 ∧
      stt_stream_trace apiKey p startupOk startupErr sched psched qs frames =
        [WireEvent.sent (OutMsg.errorSimple "unauthorized"), WireEvent.closedWith 4401] := by
  have hf : pyFalsy apiKey = true := by
    rcases h with h | h <;> rw [h] <;> rfl
  intro xApiKey p startupOk startupErr sched psched qs frames
  constructor
  · unfold require_api_key
    rw [hf]
    simp
  · have hw : wsAuthorized apiKey (credential p.headerKey p.queryKey) = false := by
      unfold wsAuthorized
      rw [hf]
      rfl
    unfold stt_stream_trace
    rw [hw]
    simp

/-- Concrete instantiation of `no_key_locks_out`: an unconfigured server
rejects even a nonempty credential. -/
theorem no_key_locks_out_witness :
    require_api_key none (some "anything") = Except.error 401 ∧
    stt_stream_trace none ⟨some "anything", none, none⟩ true "" [] []
        ⟨[], [], [], 0, 0⟩ [] =
      [WireEvent.sent (OutMsg.errorSimple "unauthorized"), WireEvent.closedWith 4401] :=
  no_key_locks_out none (Or.inl rfl) (some "anything") ⟨some "anything", none, none⟩
    true "" [] [] ⟨[], [], [], 0, 0⟩ []

/-- C8: a textual payload that parses to `{"event":"stop"}` makes the
loop send `info{stop_ack}` and continue — the sink, session and socket
stay open, and a following binary frame is still written to the engine
sink; a textual payload that fails to parse or lacks the stop event is
ignored without terminating the loop. -/
theorem stop_ack_keeps_session (nf : Bool) (t : String) (pr : TextParse)
    (b : List Nat) (rest : List InFrame)
    (hstop : isStopText t pr = true) (hb : b ≠ []) :
    recvLoop nf (InFrame.textFrame t pr :: InFrame.binFrame b :: rest) =
      WireEvent.sent (OutMsg.info "stop_ack") ::
        WireEvent.sinkWrite (normBytes nf b) :: recvLoop nf rest ∧
    (∀ t2 p2, isStopText t2 p2 = false →
      recvLoop nf (InFrame.textFrame t2 p2 :: rest) = recvLoop nf rest) := by
  constructor
  · rw [recvLoop, if_pos hstop, recvLoop, if_neg hb]
  · intro t2 p2 h2
    rw [recvLoop, if_neg (by simp [h2])]

/-- Concrete instantiation of `stop_ack_keeps_session`. -/
theorem stop_ack_keeps_session_witness :
    recvLoop false
        (InFrame.textFrame "s" (TextParse.obj [("event", "stop")]) ::
          InFrame.binFrame [1, 2] :: []) =
      WireEvent.sent (OutMsg.info "stop_ack") ::
        WireEvent.sinkWrite (normBytes false [1, 2]) :: recvLoop false [] ∧
    (∀ t2 p2, isStopText t2 p2 = false →
      recvLoop false (InFrame.textFrame t2 p2 :: []) = recvLoop false []) :=
  stop_ack_keeps_session false "s" (TextParse.obj [("event", "stop")]) [1, 2] []
    (by decide) (by decide)

/-- C4: over any frame sequence the gate never forwards a frame
processed in the `Idle` state; the frame on which the detector first
reports a non-negative keyword index is itself discarded while the
state transitions to `Recording`; and a detector exception behaves
exactly like the no-detection result -1. -/
theorem gate_idle_discipline (fs : List FrameInput) :
    (∀ st, ∀ p ∈ gateRun st fs, p.1 = GateState.idle → p.2 = false) ∧
    (∀ i b, (0 : Int) ≤ i →
      gateStep GateState.idle ⟨DetOut.ok i, b⟩ = (GateState.recording, false)) ∧
    (∀ b, gateStep GateState.idle ⟨DetOut.exn, b⟩ =
      gateStep GateState.idle ⟨DetOut.ok (-1), b⟩) := by
  refine ⟨?_, ?_, ?_⟩
  · intro st
    induction fs generalizing st with
    | nil => intro p hp; cases hp
    | cons f fs ih =>
      intro p hp h1
      rcases List.mem_cons.1 hp with h | h
      · subst h
        simp only at h1
        subst h1
        exact gateStep_idle_no_forward f
      · exact ih _ p h h1
  · intro i b hi
    simp only [gateStep, if_pos hi]
  · intro b
    rfl

/-- Concrete instantiation of `gate_idle_discipline`: detection at index
0 switches to recording without forwarding. -/
theorem gate_idle_discipline_witness :
    gateStep GateState.idle ⟨DetOut.ok 0, false⟩ = (GateState.recording, false) :=
  (gate_idle_discipline []).2.1 0 false (by decide)

theorem splitFrames_spec (bpf : Nat) (hb : 0 < bpf) :
    ∀ n (buf : List Nat), buf.length ≤ n →
      (splitFrames bpf buf).1.flatten ++ (splitFrames bpf buf).2 = buf ∧
      (splitFrames bpf buf).2.length < bpf ∧
      ∀ f ∈ (splitFrames bpf buf).1, f.length = bpf := by
  intro n
  induction n with
  | zero =>
    intro buf hlen
    have hbuf : buf = [] := List.length_eq_zero.1 (Nat.le_zero.1 hlen)
    subst hbuf
    rw [splitFrames]
    rw [dif_neg (by simp; omega)]
    exact ⟨rfl, by simpa using hb, by simp⟩
  | succ n ih =>
    intro buf hlen
    rw [splitFrames]
    by_cases h : 0 < bpf ∧ bpf ≤ buf.length
    · rw [dif_pos h]
      obtain ⟨h1, h2, h3⟩ := ih (buf.drop bpf) (by rw [List.length_drop]; omega)
      refine ⟨?_, h2, ?_⟩
      · show (buf.take bpf :: _).flatten ++ _ = buf
        rw [List.flatten_cons, List.append_assoc, h1, List.take_append_drop]
      · intro f hf
        rcases List.mem_cons.1 hf with hf | hf
        · subst hf
          rw [List.length_take]
          omega
        · exact h3 f hf
    · rw [dif_neg h]
      refine ⟨rfl, ?_, by simp⟩
      simp only at h ⊢
      omega

theorem processChunks_spec (bpf : Nat) (hb : 0 < bpf) (chunks : List (List Nat)) :
    ∀ leftover,
      (processChunks bpf leftover chunks).1.flatten ++
          (processChunks bpf leftover chunks).2 = leftover ++ chunks.flatten ∧
      (leftover.length < bpf → (processChunks bpf leftover chunks).2.length < bpf) ∧
      ∀ f ∈ (processChunks bpf leftover chunks).1, f.length = bpf := by
  induction chunks with
  | nil =>
    intro leftover
    exact ⟨by simp [processChunks], fun h => h, by simp [processChunks]⟩
  | cons c cs ih =>
    intro leftover
    obtain ⟨s1, s2, s3⟩ := splitFrames_spec bpf hb (leftover ++ c).length (leftover ++ c) le_rfl
    obtain ⟨i1, i2, i3⟩ := ih (splitFrames bpf (leftover ++ c)).2
    simp only [processChunks]
    refine ⟨?_, fun _ => i2 s2, ?_⟩
    · rw [List.flatten_append, List.append_assoc, i1, ← List.append_assoc, s1,
        List.flatten_cons, List.append_assoc]
    · intro f hf
      rcases List.mem_append.1 hf with hf | hf
      · exact s3 f hf
      · exact i3 f hf

/-- C5: for any sequence of arbitrarily-sized byte chunks, the gate acts
only on whole frames of exactly `frame_len*2` bytes: the concatenation
of the processed frames followed by the carried leftover equals the
concatenation of all received bytes (so the processed bytes are a
prefix, with nothing dropped or duplicated), the leftover is always
shorter than one frame, and every processed frame has exactly
`frame_len*2` bytes. -/
theorem reassembly_exact (frameLen : Nat) (hf : 0 < frameLen) (chunks : List (List Nat)) :
    (processChunks (frameLen * 2) [] chunks).1.flatten ++
        (processChunks (frameLen * 2) [] chunks).2 = chunks.flatten ∧
    (processChunks (frameLen * 2) [] chunks).2.length < frameLen * 2 ∧
    ∀ f ∈ (processChunks (frameLen * 2) [] chunks).1, f.length = frameLen * 2 := by
  obtain ⟨h1, h2, h3⟩ := processChunks_spec (frameLen * 2) (by omega) chunks []
  exact ⟨by simpa using h1, h2 (by simpa using hf), h3⟩

theorem classOf_process_recognized (p : RecognizedPayload) :
    classOf (process_recognized p) = some EvClass.recognized := by
  unfold process_recognized
  split <;> rfl

theorem popClass_some (c : EvClass) (qs : EngineQueues) (m : OutMsg) (qs2 : EngineQueues)
    (h : popClass c qs = some (m, qs2)) :
    classOf m = some c ∧ classMsgs c qs = m :: classMsgs c qs2 ∧
    ∀ c', c' ≠ c → classMsgs c' qs = classMsgs c' qs2 := by
  cases c with
  | recognizing =>
    cases hq : qs.recognizingQ with
    | nil => simp [popClass, hq] at h
    | cons t rest =>
      simp only [popClass, hq, Option.some.injEq, Prod.mk.injEq] at h
      obtain ⟨hm, hqs⟩ := h
      subst hm
      subst hqs
      refine ⟨rfl, by simp [classMsgs, hq], ?_⟩
      intro c' hc
      cases c' <;> first | exact absurd rfl hc | simp [classMsgs]
  | recognized =>
    cases hq : qs.recognizedQ with
    | nil => simp [popClass, hq] at h
    | cons t rest =>
      simp only [popClass, hq, Option.some.injEq, Prod.mk.injEq] at h
      obtain ⟨hm, hqs⟩ := h
      subst hm
      subst hqs
      refine ⟨classOf_process_recognized t, by simp [classMsgs, hq], ?_⟩
      intro c' hc
      cases c' <;> first | exact absurd rfl hc | simp [classMsgs]
  | canceled =>
    cases hq : qs.canceledQ with
    | nil => simp [popClass, hq] at h
    | cons t rest =>
      simp only [popClass, hq, Option.some.injEq, Prod.mk.injEq] at h
      obtain ⟨hm, hqs⟩ := h
      subst hm
      subst hqs
      refine ⟨rfl, by simp [classMsgs, hq], ?_⟩
      intro c' hc
      cases c' <;> first | exact absurd rfl hc | simp [classMsgs]
  | sessStart =>
    cases hq : qs.sessionStartedQ with
    | zero => simp [popClass, hq] at h
    | succ n =>
      simp only [popClass, hq, Option.some.injEq, Prod.mk.injEq] at h
      obtain ⟨hm, hqs⟩ := h
      subst hm
      subst hqs
      refine ⟨rfl, by simp [classMsgs, hq, List.replicate_succ], ?_⟩
      intro c' hc
      cases c' <;> first | exact absurd rfl hc | simp [classMsgs]
  | sessStop =>
    cases hq : qs.sessionStoppedQ with
    | zero => simp [popClass, hq] at h
    | succ n =>
      simp only [popClass, hq, Option.some.injEq, Prod.mk.injEq] at h
      obtain ⟨hm, hqs⟩ := h
      subst hm
      subst hqs
      refine ⟨rfl, by simp [classMsgs, hq, List.replicate_succ], ?_⟩
      intro c' hc
      cases c' <;> first | exact absurd rfl hc | simp [classMsgs]

/-- C9: under every interleaving of the five fan-in tasks, the
subsequence of outbound messages belonging to one class is a prefix of
that class's queue contents translated in engine emission order — so
for any two same-class events enqueued A before B, A's message is
written before B's, while no cross-class order is imposed. -/
theorem pump_preserves_class_order (psched : List EvClass) (qs : EngineQueues) (c : EvClass) :
    ∃ t, classProj c (pumpTrace psched qs) ++ t = classMsgs c qs := by
  induction psched generalizing qs with
  | nil => exact ⟨classMsgs c qs, by simp [pumpTrace, classProj]⟩
  | cons c' sched ih =>
    cases hpop : popClass c' qs with
    | none =>
      obtain ⟨t, ht⟩ := ih qs
      exact ⟨t, by simp only [pumpTrace, hpop]; exact ht⟩
    | some mq =>
      obtain ⟨m, qs2⟩ := mq
      obtain ⟨hcls, heq, hother⟩ := popClass_some c' qs m qs2 hpop
      obtain ⟨t, ht⟩ := ih qs2
      by_cases hc : c' = c
      · subst hc
        refine ⟨t, ?_⟩
        simp only [pumpTrace, hpop, classProj, List.filter_cons]
        rw [if_pos (by simp [hcls])]
        rw [heq, List.cons_append]
        exact congrArg (List.cons m) ht
      · refine ⟨t, ?_⟩
        simp only [pumpTrace, hpop, classProj, List.filter_cons]
        rw [if_neg (by simp [hcls, hc])]
        rw [hother c (fun hh => hc hh.symm)]
        exact ht

theorem pumpTrace_messages (psched : List EvClass) (qs : EngineQueues) :
    ∀ m ∈ pumpTrace psched qs, ∃ c, classOf m = some c := by
  induction psched generalizing qs with
  | nil => intro m hm; cases hm
  | cons c' sched ih =>
    intro m hm
    cases hpop : popClass c' qs with
    | none =>
      simp only [pumpTrace, hpop] at hm
      exact ih qs m hm
    | some mq =>
      obtain ⟨m', qs2⟩ := mq
      simp only [pumpTrace, hpop] at hm
      rcases List.mem_cons.1 hm with h | h
      · subst h
        exact ⟨c', (popClass_some c' qs m qs2 hpop).1⟩
      · exact ih qs2 m h

theorem pumpTrace_not_ready (psched : List EvClass) (qs : EngineQueues) :
    ∀ m ∈ pumpTrace psched qs, m ≠ OutMsg.ready := by
  intro m hm hr
  subst hr
  obtain ⟨c, hc⟩ := pumpTrace_messages psched qs _ hm
  exact Option.noConfusion hc

theorem recvLoop_sent_stop_ack (nf : Bool) (frames : List InFrame) :
    ∀ m, WireEvent.sent m ∈ recvLoop nf frames → m = OutMsg.info "stop_ack" := by
  induction frames with
  | nil => intro m hm; cases hm
  | cons f rest ih =>
    intro m hm
    cases f with
    | disconnect => simp only [recvLoop] at hm; cases hm
    | textFrame t p =>
      simp only [recvLoop] at hm
      by_cases hs : isStopText t p
      · rw [if_pos hs] at hm
        rcases List.mem_cons.1 hm with h | h
        · injection h with h2
        · exact ih m h
      · rw [if_neg hs] at hm
        exact ih m hm
    | binFrame b =>
      simp only [recvLoop] at hm
      by_cases hbe : b = []
      · rw [if_pos hbe] at hm
        exact ih m hm
      · rw [if_neg hbe] at hm
        rcases List.mem_cons.1 hm with h | h
        · exact WireEvent.noConfusion h
        · exact ih m h

theorem interleave_mem {α : Type} (s : List Bool) (xs ys : List α) :
    ∀ z ∈ interleave s xs ys, z ∈ xs ∨ z ∈ ys := by
  induction s generalizing xs ys with
  | nil =>
    intro z hz
    simp only [interleave] at hz
    exact List.mem_append.1 hz
  | cons b s ih =>
    intro z hz
    cases b with
    | true =>
      cases xs with
      | nil =>
        simp only [interleave] at hz
        exact Or.inr hz
      | cons x xs =>
        simp only [interleave] at hz
        rcases List.mem_cons.1 hz with h | h
        · subst h
          exact Or.inl (List.mem_cons_self _ _)
        · rcases ih xs ys z h with h1 | h1
          · exact Or.inl (List.mem_cons_of_mem x h1)
          · exact Or.inr h1
    | false =>
      cases ys with
      | nil =>
        simp only [interleave] at hz
        exact Or.inl hz
      | cons y ys =>
        simp only [interleave] at hz
        rcases List.mem_cons.1 hz with h | h
        · subst h
          exact Or.inr (List.mem_cons_self _ _)
        · rcases ih xs ys z h with h1 | h1
          · exact Or.inl h1
          · exact Or.inr (List.mem_cons_of_mem y h1)

/-- C2 counterexample: an unauthorized connection sends an outbound
message (the unauthorized error) and no `ready` at all, so "for every
server connection exactly one `ready` is sent, preceding every other
outbound message" fails as stated. -/
theorem ready_first_cex :
    sentMsgs (stt_stream_trace (some "k") ⟨none, none, none⟩ true "" [] []
        ⟨[], [], [], 0, 0⟩ []) = [OutMsg.errorSimple "unauthorized"] ∧
    OutMsg.ready ∉ sentMsgs (stt_stream_trace (some "k") ⟨none, none, none⟩ true "" [] []
        ⟨[], [], [], 0, 0⟩ []) := by
  exact ⟨by decide, by decide⟩

/-- C2 (amended): for every connection that passes authorization and
whose engine startup succeeds, exactly one `ready` message is sent and
it precedes every other outbound message of the connection (the
multiplexer task and the receive loop both start only after `ready` is
written, and neither ever emits a `ready`). -/
theorem ready_first_amended (apiKey : Option String) (p : ConnParams)
    (startupErr : String) (sched : List Bool) (psched : List EvClass)
    (qs : EngineQueues) (frames : List InFrame)
    (hauth : wsAuthorized apiKey (credential p.headerKey p.queryKey) = true) :
    ∃ rest, sentMsgs (stt_stream_trace apiKey p true startupErr sched psched qs frames) =
      OutMsg.ready :: rest ∧ OutMsg.ready ∉ rest := by
  have htr : stt_stream_trace apiKey p true startupErr sched psched qs frames =
      WireEvent.engineStart :: WireEvent.sent OutMsg.ready ::
        (interleave sched ((pumpTrace psched qs).map WireEvent.sent)
          (recvLoop (parseNormalizeFlag p.normalizeParam) frames) ++
          [WireEvent.sinkClose, WireEvent.engineStop, WireEvent.closedWith 1000]) := by
    unfold stt_stream_trace
    rw [hauth]
    simp
  rw [htr]
  refine ⟨sentMsgs (interleave sched ((pumpTrace psched qs).map WireEvent.sent)
      (recvLoop (parseNormalizeFlag p.normalizeParam) frames) ++
      [WireEvent.sinkClose, WireEvent.engineStop, WireEvent.closedWith 1000]), ?_, ?_⟩
  · simp [sentMsgs, List.filterMap_cons]
  · intro hmem
    obtain ⟨e, he, hfe⟩ := List.mem_filterMap.1 hmem
    have he2 : e = WireEvent.sent OutMsg.ready := by
      cases e <;> simp_all
    subst he2
    rcases List.mem_append.1 he with h | h
    · rcases interleave_mem _ _ _ _ h with h1 | h1
      · obtain ⟨m, hm, hm2⟩ := List.mem_map.1 h1
        injection hm2 with hm3
        exact pumpTrace_not_ready psched qs m hm hm3
      · exact OutMsg.noConfusion (recvLoop_sent_stop_ack _ _ _ h1)
    · simp at h

/-- Concrete instantiation of `ready_first_amended` on an authorized
connection. -/
theorem ready_first_amended_witness :
    ∃ rest, sentMsgs (stt_stream_trace (some "k") ⟨some "k", none, none⟩ true "" [] []
        ⟨[], [], [], 0, 0⟩ []) = OutMsg.ready :: rest ∧ OutMsg.ready ∉ rest :=
  ready_first_amended (some "k") ⟨some "k", none, none⟩ "" [] [] ⟨[], [], [], 0, 0⟩ []
    (by decide)

/-- Concrete instantiation of `reassembly_exact` on misaligned chunks. -/
theorem reassembly_exact_witness :
    (processChunks (1 * 2) [] [[1], [2, 3]]).1.flatten ++
        (processChunks (1 * 2) [] [[1], [2, 3]]).2 = [[1], [2, 3]].flatten ∧
    (processChunks (1 * 2) [] [[1], [2, 3]]).2.length < 1 * 2 ∧
    ∀ f ∈ (processChunks (1 * 2) [] [[1], [2, 3]]).1, f.length = 1 * 2 :=
  reassembly_exact 1 (by decide) [[1], [2, 3]]

end EduAssist
